import Mathlib

/-! Shallow embedding of `fatiando/seismic/conv.py` (the functions
`seismic_convolutional_model` and `rickerwave`) over exact rationals,
together with theorems settling the claims about the specification.
Arrays indexed `[row, trace]` become functions `ℕ → ℕ → ℚ`; numpy float
arithmetic is modelled exactly over `ℚ`; `np.exp` and `np.pi` enter as
parameters `E` and `pi` of the wavelet, since the claimed properties hold
for every choice of these (with `E 0 = 1` where needed, which `np.exp`
satisfies exactly). -/

namespace Conv

/-- Two-way travel time map, from the source:
`TWT[0, :] = 2*dz/model[0, :]`; for `j ≥ 1`,
`TWT[j, :] = TWT[j-1] + 2*dz/model[j, :]`. -/
def TWT (model : ℕ → ℕ → ℚ) (dz : ℚ) : ℕ → ℕ → ℚ
  | 0, t => 2 * dz / model 0 t
  | j+1, t => TWT model dz j t + 2 * dz / model (j+1) t

/-- Python `max` of a row, nonempty in every reachable call
(`max(TWT[-1, :])`); returns 0 on the empty list, where Python would raise. -/
def listMax : List ℚ → ℚ
  | [] => 0
  | x :: xs => xs.foldl max x

/-- `TMAX = max(TWT[-1, :])`: maximum over traces of the last-depth-row
travel time (`TWT[-1]` is row `n_samples - 1`). -/
def TMAX (n_samples n_traces : ℕ) (model : ℕ → ℕ → ℚ) (dz : ℚ) : ℚ :=
  listMax ((List.range n_traces).map fun t => TWT model dz (n_samples - 1) t)

/-- Fine time grid, from the source: `TWT_rs[0] = 0`;
`TWT_rs[j] = TWT_rs[j-1] + dt_dwn` with `dt_dwn = dt/10`. -/
def TWT_rs (dt : ℚ) : ℕ → ℚ
  | 0 => 0
  | j+1 => TWT_rs dt j + dt / 10

/-- `kk = np.ceil(TWT[0, j]/dt_dwn)`, per trace. -/
def kk (model : ℕ → ℕ → ℚ) (dz dt : ℚ) (t : ℕ) : ℕ :=
  (⌈TWT model dz 0 t / (dt / 10)⌉).toNat

/-- `lim = np.ceil(TWT[-1, j]/dt_dwn) - 1`, per trace. -/
def lim (n_samples : ℕ) (model : ℕ → ℕ → ℚ) (dz dt : ℚ) (t : ℕ) : ℕ :=
  (⌈TWT model dz (n_samples - 1) t / (dt / 10)⌉ - 1).toNat

/-- Piecewise-linear interpolation (`scipy.interpolate.interp1d`, kind
linear) against knots `xs 0 < xs 1 < ...`, evaluated at `x`, scanning the
remaining number of segments.  All reachable queries lie inside
`[xs 0, xs (n-1)]`; outside that range this total function extends the
nearest segment linearly (scipy would raise there). -/
def interpAux (xs ys : ℕ → ℚ) : ℕ → ℕ → ℚ → ℚ
  | i, 0, _ => ys i
  | i, 1, x => ys i + (ys (i+1) - ys i) * (x - xs i) / (xs (i+1) - xs i)
  | i, m+2, x =>
    if x ≤ xs (i+1) then
      ys i + (ys (i+1) - ys i) * (x - xs i) / (xs (i+1) - xs i)
    else interpAux xs ys (i+1) (m+1) x

/-- Interpolant through the `n` points `(xs j, ys j)`, `j < n`. -/
def interp1d (xs ys : ℕ → ℚ) (n : ℕ) (x : ℚ) : ℚ :=
  interpAux xs ys 0 (n - 1) x

/-- State of the fine-grid property array for trace `t` after the first
assignment `vel[kk:lim, j] = tck(TWT_rs[kk:lim])` into the `np.ones`
initialised array: interpolated inside `[kk, lim)`, still 1 elsewhere.
`prop` is the depth-indexed property column source (`model` for velocity,
`rho` for density); the interpolation knots are always the `TWT` column of
`model`. -/
def propStep1 (n_samples : ℕ) (model prop : ℕ → ℕ → ℚ) (dz dt : ℚ)
    (t i : ℕ) : ℚ :=
  if kk model dz dt t ≤ i ∧ i < lim n_samples model dz dt t then
    interp1d (fun j => TWT model dz j t) (fun j => prop j t) n_samples
      (TWT_rs dt i)
  else 1

/-- Final fine-grid property for trace `t` at fine index `i`, after the
three sequential numpy assignments
`vel[kk:lim, j] = tck(TWT_rs[kk:lim])`, `vel[lim:, j] = vel[lim-1, j]`,
`vel[0:kk, j] = model[0, j]` (the last write wins on `[0, kk)`; the
extension region `[lim, ...)` holds the post-step-1 value at `lim - 1`). -/
def propFine (n_samples : ℕ) (model prop : ℕ → ℕ → ℚ) (dz dt : ℚ)
    (t i : ℕ) : ℚ :=
  if i < kk model dz dt t then prop 0 t
  else if i < lim n_samples model dz dt t then
    propStep1 n_samples model prop dz dt t i
  else propStep1 n_samples model prop dz dt t (lim n_samples model dz dt t - 1)

/-- `resmpl = int(dt/dt_dwn)`; `int` truncates toward zero and the value
`dt/(dt/10)` is exactly 10 for every `dt ≠ 0`. -/
def resmpl (dt : ℚ) : ℕ := (⌊dt / (dt / 10)⌋).toNat

/-- Decimated velocity, from the source: `vel_l[0, :] = vel[0, :]` and for
`jj ≥ 1`, `vel_l[jj, j] = vel[resmpl*jj, j]` (read from the fine grid). -/
def vel_l (n_samples : ℕ) (model : ℕ → ℕ → ℚ) (dz dt : ℚ) (j t : ℕ) : ℚ :=
  if j = 0 then propFine n_samples model model dz dt t 0
  else propFine n_samples model model dz dt t (resmpl dt * j)

/-- Output time axis, from the source: row 0 stays at the `np.zeros`
value and `TWT_ts[j, :] = TWT_rs[resmpl*j]` for `j ≥ 1`; each row is
assigned as a whole, so the value is the same for every trace `t`. -/
def TWT_ts (dt : ℚ) (j t : ℕ) : ℚ :=
  if j = 0 then 0 else TWT_rs dt (resmpl dt * j)

/-- Decimated density exactly as the CODE computes it:
`rho_l[0, :] = rho2[0, :]` but, for `jj ≥ 1`,
`rho_l[jj, j] = rho[resmpl*jj, j]` — the second line reads the RAW
depth-indexed density array `rho`, not its fine-resampled counterpart
`rho2` (which is `propFine` applied to `rho`). -/
def rho_l (n_samples : ℕ) (model rho : ℕ → ℕ → ℚ) (dz dt : ℚ)
    (j t : ℕ) : ℚ :=
  if j = 0 then propFine n_samples model rho dz dt t 0
  else rho (resmpl dt * j) t

/-- Modelled from the spec: density decimated identically to velocity,
reading the fine-resampled `rho2 = propFine` at `resmpl*j`.  This is the
behaviour the spec and the claims describe; it differs from `rho_l`
above, which is what the source does. -/
def rho_l_spec (n_samples : ℕ) (model rho : ℕ → ℕ → ℚ) (dz dt : ℚ)
    (j t : ℕ) : ℚ :=
  if j = 0 then propFine n_samples model rho dz dt t 0
  else propFine n_samples model rho dz dt t (resmpl dt * j)

/-- Python bitwise complement of a bool: `~True = -2`, `~False = -1`. -/
def pyTilde (b : Bool) : Int := if b then -2 else -1

/-- Python truthiness of an int: nonzero is true. -/
def pyTruthy (i : Int) : Bool := i != 0

/-- Reflection coefficients.  The guard embeds the source line
`if ~isinstance(rho, np.ndarray):`.  Python `~` applied to a bool yields
-2 or -1, both truthy, so the first (velocity-only) branch is taken for
EVERY input and the impedance branch is dead code — in the source it
would moreover read `rc` before any assignment and its second line lacks
a continuation. -/
def rc (isArr : Bool) (velL rhoL : ℕ → ℕ → ℚ) (j t : ℕ) : ℚ :=
  if pyTruthy (pyTilde isArr) then
    if j = 0 then 0
    else (velL j t - velL (j-1) t) / (velL j t + velL (j-1) t)
  else
    if j = 0 then 0
    else (velL j t * rhoL j t - velL (j-1) t * rhoL (j-1) t) /
         (velL j t * rhoL j t + velL (j-1) t * rhoL (j-1) t)

/-- Modelled from the spec: reflection coefficients from the impedance
`Z = vel_l * rho_l`, `RC[0] = 0`, `RC[j] = (Z[j]-Z[j-1])/(Z[j]+Z[j-1])`.
Used to state what the claims expect, for comparison with `rc`. -/
def rcSpec (velL rhoL : ℕ → ℕ → ℚ) (j t : ℕ) : ℚ :=
  if j = 0 then 0
  else (velL j t * rhoL j t - velL (j-1) t * rhoL (j-1) t) /
       (velL j t * rhoL j t + velL (j-1) t * rhoL (j-1) t)

/-- Wavelet length, from the source: `nw = 2.2/f/dt` then
`nw = 2*np.floor(nw/2) + 1`, used as an array length. -/
def nwNat (f dt : ℚ) : ℕ := (2 * ⌊11/5 / f / dt / 2⌋ + 1).toNat

/-- One wavelet sample, 1-based index `k` as in the source
(`k = np.arange(1, nw+1)`): `alpha = (nc-k+1)*f*dt*pi`,
`beta = alpha**2`, `w = (1 - beta*2) * exp(-beta)`, with `np.exp`
abstracted as `E` and `np.pi` as `pi`. -/
def rickerAmp (E : ℚ → ℚ) (pi f dt : ℚ) (nc : ℕ) (k : ℕ) : ℚ :=
  (1 - (((nc : ℚ) - (k : ℚ) + 1) * f * dt * pi) ^ 2 * 2) *
    E (-(((nc : ℚ) - (k : ℚ) + 1) * f * dt * pi) ^ 2)

/-- The Ricker wavelet of the source: length `nw`, centre
`nc = np.floor(nw/2)`, entries `rickerAmp` at 1-based positions. -/
def rickerwave (E : ℚ → ℚ) (pi f dt : ℚ) : List ℚ :=
  (List.range (nwNat f dt)).map fun i =>
    rickerAmp E pi f dt (nwNat f dt / 2) (i + 1)

/-- `np.convolve(a, v, mode=full)`: length `M + N - 1`, entry `n` is
`Σ_k a[k] * v[n-k]` (out-of-range factors read as 0). -/
def convFull (a v : List ℚ) : List ℚ :=
  (List.range (a.length + v.length - 1)).map fun n =>
    ((List.range (n+1)).map fun k => a.getD k 0 * v.getD (n-k) 0).sum

/-- `np.convolve(a, v, mode=same)`: the centred `max(M, N)` entries of
the full convolution (left offset `(min(M, N) - 1) / 2`). -/
def convSame (a v : List ℚ) : List ℚ :=
  ((convFull a v).drop ((min a.length v.length - 1) / 2)).take
    (max a.length v.length)

/-- Python slice `x[aux:-aux]`: empty when `aux = 0` (since `x[0:-0]` is
`x[0:0]`), otherwise drops `aux` entries at each end. -/
def pyTrimBoth (l : List ℚ) (aux : ℕ) : List ℚ :=
  if aux = 0 then [] else (l.drop aux).take (l.length - 2 * aux)

/-- Per-trace convolution branch of the source: centred convolution when
the trace is at least as long as the wavelet, otherwise the full
convolution trimmed by `aux = np.floor(len(w)/2)` at each end. -/
def convolveTrace (rcT w : List ℚ) : List ℚ :=
  if w.length ≤ rcT.length then convSame rcT w
  else pyTrimBoth (convFull rcT w) (w.length / 2)

/-- Number of output samples, `np.ceil(TMAX/dt)` used as a size. -/
def N_coarse (n_samples n_traces : ℕ) (model : ℕ → ℕ → ℚ)
    (dz dt : ℚ) : ℕ :=
  (⌈TMAX n_samples n_traces model dz / dt⌉).toNat

/-- Reflectivity column for trace `t` as a list over the output rows. -/
def rcList (n_samples n_traces : ℕ) (model : ℕ → ℕ → ℚ) (dz dt : ℚ)
    (isArr : Bool) (rho : ℕ → ℕ → ℚ) (t : ℕ) : List ℚ :=
  (List.range (N_coarse n_samples n_traces model dz dt)).map fun j =>
    rc isArr (vel_l n_samples model dz dt)
      (rho_l n_samples model rho dz dt) j t

/-- The whole entry point.  First component: the seismogram, one list per
trace (the transpose of the `synth_l` matrix); second component: the
`TWT_ts` time-axis matrix as a list of rows.  `isArr` records whether the
`rho` argument was a numpy array; when it is a scalar, `rho` is unused,
matching `rho = 1.` in the source. -/
def seismic_convolutional_model (n_samples n_traces : ℕ)
    (model : ℕ → ℕ → ℚ) (E : ℚ → ℚ) (pi f dz dt : ℚ)
    (isArr : Bool) (rho : ℕ → ℕ → ℚ) : List (List ℚ) × List (List ℚ) :=
  ((List.range n_traces).map fun t =>
      convolveTrace (rcList n_samples n_traces model dz dt isArr rho t)
        (rickerwave E pi f dt),
   (List.range (N_coarse n_samples n_traces model dz dt)).map fun j =>
      (List.range n_traces).map fun t => TWT_ts dt j t)

/-- Constant-2000 velocity model, the end-to-end input of the spec. -/
def modelConst2000 : ℕ → ℕ → ℚ := fun _ _ => 2000

/-- Placeholder density function when the scalar default `rho = 1.` is used. -/
def rhoOne : ℕ → ℕ → ℚ := fun _ _ => 1

/-- Constant-10000 velocity model, used as the density failing input. -/
def modelConst10000 : ℕ → ℕ → ℚ := fun _ _ => 10000

/-- Depth-graded density array, `rho[j, t] = j + 1`, all entries positive. -/
def rhoGrade : ℕ → ℕ → ℚ := fun j _ => (j : ℚ) + 1

/-- A model with a negative velocity at depth row 1. -/
def modelNeg : ℕ → ℕ → ℚ := fun j _ => if j = 1 then -1 else 1

attribute [local semireducible] Rat.add Rat.mul Rat.inv Rat.sub

/-- C3: the travel-time map obeys the stated seed and recurrence, and for
every model with positive velocities and positive dz it is strictly
increasing along the depth axis in every trace. -/
theorem TWT_recurrence_strictMono (model : ℕ → ℕ → ℚ) (dz : ℚ) (t : ℕ)
    (hdz : 0 < dz) (hv : ∀ j, 0 < model j t) :
    TWT model dz 0 t = 2 * dz / model 0 t ∧
    (∀ j, 1 ≤ j →
      TWT model dz j t = TWT model dz (j-1) t + 2 * dz / model j t) ∧
    StrictMono fun j => TWT model dz j t := by
  refine ⟨rfl, ?_, ?_⟩
  · intro j hj
    obtain ⟨m, rfl⟩ : ∃ m, j = m + 1 := ⟨j - 1, by omega⟩
    simp [TWT]
  · apply strictMono_nat_of_lt_succ
    intro n
    have hpos : 0 < 2 * dz / model (n+1) t :=
      div_pos (by linarith) (hv (n+1))
    show TWT model dz n t < TWT model dz (n+1) t
    simp only [TWT]
    linarith

/-- Witness for C3 at the constant unit model. -/
theorem TWT_recurrence_strictMono_witness :
    (0:ℚ) < 1 ∧ (0:ℚ) < (fun (_ _ : ℕ) => (1:ℚ)) 5 0 ∧
    TWT (fun _ _ => (1:ℚ)) 1 0 0 < TWT (fun _ _ => (1:ℚ)) 1 1 0 :=
  ⟨by norm_num, by norm_num,
    (TWT_recurrence_strictMono (fun _ _ => (1:ℚ)) 1 0 (by norm_num)
      (fun _ => by norm_num)).2.2 (by omega : (0:ℕ) < 1)⟩

/-- C8: the first reflectivity sample is 0 for every trace and every
input, with or without a density array (both branches of the source
leave row 0 at its `np.zeros` value). -/
theorem rc_first_sample_zero (isArr : Bool) (velL rhoL : ℕ → ℕ → ℚ)
    (t : ℕ) : rc isArr velL rhoL 0 t = 0 := by
  unfold rc
  split <;> rfl

/-- C9: the fine-grid resampled velocity at index 0 equals the first
velocity sample of the depth model, for every trace: the final
assignment `vel[0:kk, j] = model[0, j]` covers index 0 because
`TWT[0, j] > 0` forces `kk ≥ 1`. -/
theorem velFine_first (n_samples : ℕ) (model : ℕ → ℕ → ℚ) (dz dt : ℚ)
    (t : ℕ) (hdz : 0 < dz) (hdt : 0 < dt) (hv : 0 < model 0 t) :
    propFine n_samples model model dz dt t 0 = model 0 t := by
  have h0 : 0 < TWT model dz 0 t := div_pos (by linarith) hv
  have hq : 0 < TWT model dz 0 t / (dt / 10) :=
    div_pos h0 (by linarith)
  have hk : 0 < kk model dz dt t := by
    have hc := Int.ceil_pos.mpr hq
    unfold kk
    omega
  unfold propFine
  rw [if_pos hk]

/-- Witness for C9 at the constant unit model. -/
theorem velFine_first_witness :
    (0:ℚ) < 1 ∧
    propFine 2 (fun _ _ => (1:ℚ)) (fun _ _ => (1:ℚ)) 1 1 0 0 =
      (fun (_ _ : ℕ) => (1:ℚ)) 0 0 :=
  ⟨by norm_num,
    velFine_first 2 (fun _ _ => (1:ℚ)) 1 1 0 (by norm_num) (by norm_num)
      (by norm_num)⟩

/-- Closed form of the fine time grid: `TWT_rs i = i * (dt/10)`. -/
theorem TWT_rs_closed (dt : ℚ) : ∀ i, TWT_rs dt i = i * (dt / 10)
  | 0 => by simp [TWT_rs]
  | i+1 => by
    rw [TWT_rs, TWT_rs_closed dt i]
    push_cast
    ring

/-- The decimation ratio `int(dt/(dt/10))` is exactly 10 whenever
`dt ≠ 0`. -/
theorem resmpl_eq_ten (dt : ℚ) (h : dt ≠ 0) : resmpl dt = 10 := by
  unfold resmpl
  have h10 : dt / (dt / 10) = 10 := by
    field_simp
  rw [h10]
  decide

/-- C10: over exact arithmetic the time axis is velocity independent and
identical across traces: the fine grid is `i * (dt/10)`, the decimation
ratio is 10, and `TWT_ts[j, t] = j * dt` for every row `j` and trace `t`
(no model argument occurs in `TWT_ts` at all). -/
theorem TWT_ts_linear (dt : ℚ) (hdt : 0 < dt) :
    (∀ i, TWT_rs dt i = i * (dt / 10)) ∧ resmpl dt = 10 ∧
    ∀ j t, TWT_ts dt j t = j * dt := by
  have h10 := resmpl_eq_ten dt (ne_of_gt hdt)
  refine ⟨TWT_rs_closed dt, h10, ?_⟩
  intro j t
  unfold TWT_ts
  by_cases hj : j = 0
  · simp [hj]
  · rw [if_neg hj, TWT_rs_closed, h10]
    push_cast
    ring

/-- Witness for C10 at `dt = 1/500`, row 3. -/
theorem TWT_ts_linear_witness :
    (0:ℚ) < 1/500 ∧ TWT_ts (1/500) 3 0 = ((3:ℕ) : ℚ) * (1/500) :=
  ⟨by norm_num, (TWT_ts_linear (1/500) (by norm_num)).2.2 3 0⟩

/-- Length of the full convolution. -/
theorem convFull_length (a v : List ℚ) :
    (convFull a v).length = a.length + v.length - 1 := by
  simp [convFull]

/-- C4: the per-trace convolution step preserves the reflectivity trace
length for every nonempty trace and every odd-length wavelet (the
wavelet generator only produces odd lengths): via the centred mode when
the trace is at least as long as the wavelet, via trimming
`floor(len(w)/2)` at each end of the full convolution otherwise. -/
theorem convolveTrace_length (a w : List ℚ) (ha : 1 ≤ a.length)
    (hw : w.length % 2 = 1) :
    (convolveTrace a w).length = a.length := by
  unfold convolveTrace
  by_cases h : w.length ≤ a.length
  · rw [if_pos h]
    unfold convSame
    rw [List.length_take, List.length_drop, convFull_length]
    omega
  · rw [if_neg h]
    have haux : ¬ w.length / 2 = 0 := by omega
    unfold pyTrimBoth
    rw [if_neg haux, List.length_take, List.length_drop, convFull_length]
    omega

/-- Witness for C4 on a concrete short trace and longer wavelet. -/
theorem convolveTrace_length_witness :
    1 ≤ [(1:ℚ), 0].length ∧ [(1:ℚ), 2, 3].length % 2 = 1 ∧
    (convolveTrace [(1:ℚ), 0] [(1:ℚ), 2, 3]).length = [(1:ℚ), 0].length :=
  ⟨by decide, by decide,
    convolveTrace_length [(1:ℚ), 0] [(1:ℚ), 2, 3] (by decide) (by decide)⟩

/-- Reading a mapped range list with `getD` inside bounds. -/
theorem getD_map_range (n : ℕ) (f : ℕ → ℚ) (i : ℕ) (h : i < n) :
    ((List.range n).map f).getD i 0 = f i := by
  rw [List.getD_eq_getElem?_getD, List.getElem?_map, List.getElem?_range h]
  rfl

/-- For positive `f` and `dt` the wavelet length is `2*m + 1` with
`m = ⌊(2.2/(f*dt))/2⌋ ≥ 0`. -/
theorem nwNat_structure (f dt : ℚ) (hf : 0 < f) (hdt : 0 < dt) :
    ∃ m : ℕ, (⌊11/5 / f / dt / 2⌋ : ℤ) = m ∧ nwNat f dt = 2 * m + 1 := by
  have hq : 0 ≤ 11/5 / f / dt / 2 := by positivity
  have hm : 0 ≤ ⌊11/5 / f / dt / 2⌋ := Int.floor_nonneg.mpr hq
  refine ⟨(⌊11/5 / f / dt / 2⌋).toNat, by omega, ?_⟩
  unfold nwNat
  omega

/-- Wavelet samples at 1-based positions whose offsets from the centre
are opposite are equal, whatever `E` and `pi` are. -/
theorem rickerAmp_symm (E : ℚ → ℚ) (pi f dt : ℚ) (nc k kp : ℕ)
    (h : ((nc : ℚ) - (kp : ℚ) + 1) = -((nc : ℚ) - (k : ℚ) + 1)) :
    rickerAmp E pi f dt nc k = rickerAmp E pi f dt nc kp := by
  have hsq : (-((nc : ℚ) - (k : ℚ) + 1) * f * dt * pi) ^ 2 =
      (((nc : ℚ) - (k : ℚ) + 1) * f * dt * pi) ^ 2 := by ring
  simp only [rickerAmp]
  rw [h, hsq]

/-- C5: for positive `f` and `dt` the Ricker wavelet has the odd length
`nw = 2*floor(2.2/(f*dt)/2) + 1`, is symmetric about its centre
(1-based sample `k` equals sample `nw+1-k`, i.e. 0-based `k-1` equals
`nw-k`), and the centre sample is exactly 1 (as `np.exp(-0.) = 1`
exactly; `E 0 = 1` is that fact about the abstracted exponential). -/
theorem rickerwave_props (E : ℚ → ℚ) (pi f dt : ℚ)
    (hf : 0 < f) (hdt : 0 < dt) (hE : E 0 = 1) :
    (rickerwave E pi f dt).length = nwNat f dt ∧
    nwNat f dt % 2 = 1 ∧
    (∀ k, 1 ≤ k → k ≤ nwNat f dt →
      (rickerwave E pi f dt).getD (k - 1) 0 =
        (rickerwave E pi f dt).getD (nwNat f dt - k) 0) ∧
    (rickerwave E pi f dt).getD (nwNat f dt / 2) 0 = 1 := by
  obtain ⟨m, hm, hnw⟩ := nwNat_structure f dt hf hdt
  have hlen : (rickerwave E pi f dt).length = nwNat f dt := by
    simp [rickerwave]
  refine ⟨hlen, by omega, ?_, ?_⟩
  · intro k hk1 hk2
    have hnc : nwNat f dt / 2 = m := by omega
    simp only [rickerwave]
    rw [getD_map_range _ _ _ (by omega), getD_map_range _ _ _ (by omega),
      hnc]
    have hk' : k - 1 + 1 = k := by omega
    rw [hk']
    apply rickerAmp_symm
    have h1 : nwNat f dt - k + 1 = 2 * m + 2 - k := by omega
    rw [h1, Nat.cast_sub (by omega : k ≤ 2 * m + 2)]
    push_cast
    ring
  · have hnc : nwNat f dt / 2 = m := by omega
    simp only [rickerwave]
    rw [getD_map_range _ _ _ (by omega), hnc]
    simp only [rickerAmp]
    have hz : ((m : ℚ) - ((m + 1 : ℕ) : ℚ) + 1) = 0 := by
      push_cast
      ring
    rw [hz]
    norm_num [hE]

/-- Witness for C5 at `f = 30`, `dt = 1/500`, with a concrete symmetric
pair (1-based samples 2 and nw-1). -/
theorem rickerwave_props_witness :
    (0:ℚ) < 30 ∧ (0:ℚ) < 1/500 ∧
    (rickerwave (fun _ => 1) 0 30 (1/500)).getD (2 - 1) 0 =
      (rickerwave (fun _ => 1) 0 30 (1/500)).getD (nwNat 30 (1/500) - 2) 0 ∧
    (rickerwave (fun _ => 1) 0 30 (1/500)).getD (nwNat 30 (1/500) / 2) 0 = 1 :=
  ⟨by norm_num, by norm_num,
    (rickerwave_props (fun _ => 1) 0 30 (1/500) (by norm_num) (by norm_num)
      rfl).2.2.1 2 (by norm_num) (by decide),
    (rickerwave_props (fun _ => 1) 0 30 (1/500) (by norm_num) (by norm_num)
      rfl).2.2.2⟩

/-- C2 (code bug): at the failing input (11 depth samples, constant
velocity 10000, dz = 1, dt = 1/500, density `rho[j] = j+1`), the code
decimates density by reading the raw depth-indexed array,
`rho_l[1] = rho[10] = 11`, while decimating the fine-resampled density
as the velocity path does — what the claim states — gives
`rho2[10] = 9`.  Row 0 agrees (`rho_l[0] = rho2[0]`). -/
theorem rho_decimation_reads_raw :
    rho_l 11 modelConst10000 rhoGrade 1 (1/500) 1 0 = 11 ∧
    rho_l_spec 11 modelConst10000 rhoGrade 1 (1/500) 1 0 = 9 ∧
    rho_l 11 modelConst10000 rhoGrade 1 (1/500) 1 0 ≠
      rho_l_spec 11 modelConst10000 rhoGrade 1 (1/500) 1 0 ∧
    rho_l 11 modelConst10000 rhoGrade 1 (1/500) 0 0 =
      rho_l_spec 11 modelConst10000 rhoGrade 1 (1/500) 0 0 := by
  refine ⟨by decide, by decide, by decide, by decide⟩

/-- C1 (code bug): the guard `~isinstance(rho, np.ndarray)` is truthy
for both possible values, so the velocity-only branch always runs and
density never influences the reflectivity.  At the failing input
(constant velocity, positive non-uniform density) the code yields
`RC[1] = 0`, whereas the claimed impedance formula with the decimated
density yields 4/5. -/
theorem rc_ignores_density :
    (∀ b : Bool, pyTruthy (pyTilde b) = true) ∧
    rc true (vel_l 11 modelConst10000 1 (1/500))
      (rho_l 11 modelConst10000 rhoGrade 1 (1/500)) 1 0 = 0 ∧
    rcSpec (vel_l 11 modelConst10000 1 (1/500))
      (rho_l_spec 11 modelConst10000 rhoGrade 1 (1/500)) 1 0 = 4/5 := by
  refine ⟨fun b => by cases b <;> rfl, by decide, by decide⟩

set_option maxRecDepth 10000 in
/-- C7 counterexample: on a model containing a non-positive velocity
the computation raises nothing and returns definite output arrays — a
2-sample single-trace seismogram and a 2-row time axis. -/
theorem no_invalid_model_error :
    modelNeg 1 0 ≤ 0 ∧
    seismic_convolutional_model 3 1 modelNeg (fun _ => 1) 0 30 1 1 false
      rhoOne = ([[0, 0]], [[0], [1]]) := by
  exact ⟨by decide, by decide⟩

/-- C7 amended: the code performs no velocity validation at all — for
every input, valid or not, it returns a seismogram with one column per
trace and a time axis with `ceil(TMAX/dt)` rows. -/
theorem outputs_always_produced (n_samples n_traces : ℕ)
    (model : ℕ → ℕ → ℚ) (E : ℚ → ℚ) (pi f dz dt : ℚ) (isArr : Bool)
    (rho : ℕ → ℕ → ℚ) :
    (seismic_convolutional_model n_samples n_traces model E pi f dz dt
      isArr rho).1.length = n_traces ∧
    (seismic_convolutional_model n_samples n_traces model E pi f dz dt
      isArr rho).2.length = N_coarse n_samples n_traces model dz dt := by
  constructor <;> simp [seismic_convolutional_model]

/-- Reading a replicate-zero list with `getD` always yields 0. -/
theorem getD_replicate_zero (m k : ℕ) :
    (List.replicate m (0:ℚ)).getD k 0 = 0 := by
  induction m generalizing k with
  | zero => simp [List.getD]
  | succ n ih =>
    rw [List.replicate_succ]
    cases k with
    | zero => rfl
    | succ k => simpa using ih k

/-- Full convolution with an all-zero left operand is all zero. -/
theorem convFull_zero_left (m : ℕ) (v : List ℚ) :
    convFull (List.replicate m 0) v = List.replicate (m + v.length - 1) 0 := by
  have hlen : (convFull (List.replicate m 0) v).length = m + v.length - 1 := by
    rw [convFull_length, List.length_replicate]
  have hmem : ∀ x ∈ convFull (List.replicate m 0) v, x = 0 := by
    intro x hx
    simp only [convFull, List.mem_map, List.mem_range] at hx
    obtain ⟨n, _, rfl⟩ := hx
    apply List.sum_eq_zero
    intro y hy
    simp only [List.mem_map, List.mem_range] at hy
    obtain ⟨k, _, rfl⟩ := hy
    rw [getD_replicate_zero, zero_mul]
  calc convFull (List.replicate m 0) v
      = List.replicate (convFull (List.replicate m 0) v).length 0 :=
        List.eq_replicate_of_mem hmem
    _ = List.replicate (m + v.length - 1) 0 := by rw [hlen]

set_option maxRecDepth 100000 in
set_option maxHeartbeats 4000000 in
/-- C6 end-to-end: single trace, 50 depth samples, constant velocity
2000, dz = 1, f = 30, dt = 1/500, no density array: every reflection
coefficient is 0 and the seismogram column is identically zero — for
every exponential `E` and every value of `pi`. -/
theorem e2e_constant_model_zero :
    rcList 50 1 modelConst2000 1 (1/500) false rhoOne 0 =
      List.replicate 25 0 ∧
    ∀ (E : ℚ → ℚ) (pi : ℚ),
      convolveTrace (rcList 50 1 modelConst2000 1 (1/500) false rhoOne 0)
        (rickerwave E pi 30 (1/500)) = List.replicate 25 0 := by
  have hrc : rcList 50 1 modelConst2000 1 (1/500) false rhoOne 0 =
      List.replicate 25 0 := by decide
  refine ⟨hrc, ?_⟩
  intro E pi
  have hnw : nwNat 30 (1/500) = 37 := by decide
  have hw : (rickerwave E pi 30 (1/500)).length = 37 := by
    simp only [rickerwave, List.length_map, List.length_range]
    exact hnw
  rw [hrc]
  unfold convolveTrace
  rw [if_neg (by rw [hw, List.length_replicate]; norm_num)]
  rw [convFull_zero_left, hw]
  unfold pyTrimBoth
  rw [if_neg (by norm_num)]
  rw [List.length_replicate, List.drop_replicate, List.take_replicate]
  norm_num

end Conv
